import Mathlib

/-!
Verification of the kiss-drop resumable chunked-upload subsystem.

The definitions below are a shallow embedding of the Go source:
the `UploadManager` / `UploadSession` code (upload.go, embedded in
DESIGN.md lines 206-559), the HTTP handlers (HandleUploadInit /
HandleUploadChunk / HandleUploadComplete), and `GenerateID` from
storage.go.  Byte streams are `List Nat`, time instants are `Int`
nanoseconds (Go `time.Time` / `time.Duration`), the on-disk chunk
files of one session are an association list from chunk index to the
file's bytes (the session's scratch directory), and the in-memory
session table is an association list from session id to session state.
Disk-write failures are made explicit through a `WriteOutcome`
parameter standing for the result of `os.Create` / `io.Copy`.
-/

/-- Error kinds of the upload subsystem, mirroring the error returns of
the Go code (`session not found`, `invalid chunk index`, the handler's
400 on bad init input, I/O errors, a chunk file missing at assembly
time, and `upload not complete`). -/
inductive UploadError where
  | notFound
  | invalidIndex
  | validationError
  | ioFailure
  | storageCorruption
  | incomplete
deriving DecidableEq, Repr

/-- Outcome of the disk operations inside `ReceiveChunk`:
`ok` = `os.Create` and `io.Copy` both succeed;
`createFailed` = `os.Create` fails (nothing written);
`copyFailed` = `os.Create` succeeds but `io.Copy` fails partway. -/
inductive WriteOutcome where
  | ok
  | createFailed
  | copyFailed
deriving DecidableEq, Repr

/-- Outcome of `Storage.CreateShare` during the completion path. -/
inductive ShareOutcome where
  | ok
  | failed
deriving DecidableEq, Repr

/-- `defaultChunkSize = 5 * 1024 * 1024` (upload.go). -/
def defaultChunkSize : Int := 5 * 1024 * 1024

/-- `uploadTimeout = 24 * time.Hour` in nanoseconds (upload.go). -/
def uploadTimeout : Int := 24 * 60 * 60 * 1000000000

/-- The chunk-count computation of `InitUpload` (upload.go):
`totalChunks := int((fileSize + chunkSize - 1) / chunkSize)` with Go's
truncated integer division, then `if totalChunks == 0 { totalChunks = 1 }`. -/
def computeTotalChunks (fileSize : Int) : Int :=
  if Int.tdiv (fileSize + defaultChunkSize - 1) defaultChunkSize = 0 then 1
  else Int.tdiv (fileSize + defaultChunkSize - 1) defaultChunkSize

/-- State of one `UploadSession` (upload.go).  `chunks` is the content of
the session's scratch directory: chunk index to chunk-file bytes. -/
structure SessionState where
  fileName : String
  fileSize : Int
  chunkSize : Int
  totalChunks : Int
  receivedMask : List Bool
  chunks : List (Nat × List Nat)
  createdAt : Int
  lastActivity : Int
deriving DecidableEq, Repr

/-- Remove the chunk file of index `i` from a scratch directory
(`os.Remove(chunkPath)`, or the truncation performed by `os.Create`). -/
def eraseChunk (i : Nat) (l : List (Nat × List Nat)) : List (Nat × List Nat) :=
  l.filter (fun p => p.1 != i)

/-- `ReceiveChunk` at the session level (upload.go lines 337-360), after
the session has been looked up: validate `index < 0 || index >= TotalChunks`;
`os.Create` the chunk file (truncating any previous content); `io.Copy` the
bytes, removing the file on copy failure; on success set the mask entry and
`LastActivity`.  The mask is not touched on any failure path. -/
def SessionState.receiveChunk (s : SessionState) (index : Int) (data : List Nat)
    (w : WriteOutcome) (now : Int) : SessionState × Option UploadError :=
  if index < 0 ∨ s.totalChunks ≤ index then
    (s, some .invalidIndex)
  else
    match w with
    | .createFailed => (s, some .ioFailure)
    | .copyFailed =>
        ({ s with chunks := eraseChunk index.toNat s.chunks }, some .ioFailure)
    | .ok =>
        ({ s with
            chunks := (index.toNat, data) :: eraseChunk index.toNat s.chunks,
            receivedMask := s.receivedMask.set index.toNat true,
            lastActivity := now }, none)

/-- `IsComplete` at the session level: every mask entry is set (upload.go). -/
def SessionState.isComplete (s : SessionState) : Bool :=
  s.receivedMask.all (fun b => b)

/-- `ReceivedCount` at the session level: number of set mask entries. -/
def SessionState.receivedCount (s : SessionState) : Nat :=
  s.receivedMask.count true

/-- The index sequence `0, 1, ..., TotalChunks-1` the chunk reader walks. -/
def chunkIndices (s : SessionState) : List Nat :=
  List.range s.totalChunks.toNat

/-- The sequential chunk reader (`chunkReader.Read`, upload.go lines 482-509):
open chunk file `i`, read it fully, close it, move to `i+1`; a missing chunk
file makes the whole read fail.  Returns the list of chunk contents in
index order. -/
def collectChunks (chunks : List (Nat × List Nat)) : List Nat → Option (List (List Nat))
  | [] => some []
  | i :: rest =>
    match List.lookup i chunks with
    | none => none
    | some c =>
      match collectChunks chunks rest with
      | none => none
      | some cs => some (c :: cs)

/-- The full stream produced by the chunk reader for a session: the
concatenation of chunk files 0 through `totalChunks - 1`; `none` when some
chunk file cannot be opened (the reader's error path).  End-of-stream
follows the last byte of the last chunk. -/
def assembleChunks (s : SessionState) : Option (List Nat) :=
  (collectChunks s.chunks (chunkIndices s)).map List.flatten

/-- The session construction performed by `InitUpload` (upload.go lines
293-309): server-fixed chunk size, `computeTotalChunks`, all-false mask of
that length, fresh empty scratch directory, both timestamps `now`. -/
def mkSession (fileName : String) (fileSize : Int) (now : Int) : SessionState :=
  let totalChunks := computeTotalChunks fileSize
  { fileName := fileName
    fileSize := fileSize
    chunkSize := defaultChunkSize
    totalChunks := totalChunks
    receivedMask := List.replicate totalChunks.toNat false
    chunks := []
    createdAt := now
    lastActivity := now }

/-- The `UploadManager`'s session table (`sessions map[string]*UploadSession`). -/
structure ManagerState where
  sessions : List (String × SessionState)
deriving DecidableEq, Repr

/-- `GetSession`: read-only lookup in the session table. -/
def ManagerState.getSession (m : ManagerState) (id : String) : Option SessionState :=
  List.lookup id m.sessions

/-- Re-binding of session `id` after an in-place mutation of its state
(Go mutates the `*UploadSession` behind the map entry). -/
def updateSession (id : String) (s : SessionState)
    (l : List (String × SessionState)) : List (String × SessionState) :=
  l.map (fun p => if p.1 == id then (id, s) else p)

/-- `ReceiveChunk` at the manager level (upload.go lines 331-361):
`GetSession`, failing with not-found when the session does not exist,
then the session-level receive. -/
def ManagerState.receiveChunk (m : ManagerState) (id : String) (index : Int)
    (data : List Nat) (w : WriteOutcome) (now : Int) : ManagerState × Option UploadError :=
  match m.getSession id with
  | none => (m, some .notFound)
  | some s =>
    let r := s.receiveChunk index data w now
    (⟨updateSession id r.1 m.sessions⟩, r.2)

/-- `InitUpload` at the manager level with the generated id passed in:
creates the scratch directory and registers the new session. -/
def ManagerState.initUpload (m : ManagerState) (id : String) (fileName : String)
    (fileSize : Int) (now : Int) : ManagerState × SessionState :=
  let s := mkSession fileName fileSize now
  (⟨(id, s) :: m.sessions⟩, s)

/-- `Cleanup` (upload.go lines 442-448): delete the table entry and
recursively delete the scratch directory; both are no-ops when the
session is already gone. -/
def ManagerState.discard (m : ManagerState) (id : String) : ManagerState :=
  ⟨m.sessions.filter (fun p => p.1 != id)⟩

/-- `cleanupStale` (upload.go lines 460-471): at sweep time `now`, delete
every session with `now.Sub(session.LastActivity) > uploadTimeout`,
exactly as `Cleanup` does (table entry and scratch directory). -/
def ManagerState.cleanupStale (m : ManagerState) (now : Int) : ManagerState :=
  ⟨m.sessions.filter (fun p => !(decide (uploadTimeout < now - p.2.lastActivity)))⟩

/-- `HandleUploadInit` (handlers): reject empty file name or
`fileSize <= 0` with a validation error before any session or scratch
directory is created; otherwise delegate to `InitUpload`. -/
def handleUploadInit (m : ManagerState) (id : String) (fileName : String)
    (fileSize : Int) (now : Int) : Except UploadError (ManagerState × SessionState) :=
  if fileName = "" ∨ fileSize ≤ 0 then .error .validationError
  else .ok (m.initUpload id fileName fileSize now)

/-- `HandleUploadComplete` (handlers): 404 when the session is unknown,
400 when not all chunks are present; otherwise `CreateShare` consumes the
chunk reader (failing with a corruption error when a chunk file is
missing, or with an I/O error when the share write fails, in both cases
without touching the session), and only after the share is durably
created is the session discarded via `Cleanup`.  Returns the new manager
state and either the assembled share bytes or the error. -/
def handleUploadComplete (m : ManagerState) (id : String) (w : ShareOutcome) :
    ManagerState × Except UploadError (List Nat) :=
  match m.getSession id with
  | none => (m, .error .notFound)
  | some s =>
    if s.isComplete then
      match assembleChunks s with
      | none => (m, .error .storageCorruption)
      | some bytes =>
        match w with
        | .failed => (m, .error .ioFailure)
        | .ok => (m.discard id, .ok bytes)
    else (m, .error .incomplete)

/-- Driver for the scenario "the client uploads a list of (index, bytes)
chunks one after the other, each disk write succeeding": folds the
session-level `receiveChunk`, stopping at the first error. -/
def uploadList (s : SessionState) : List (Nat × List Nat) → Except UploadError SessionState
  | [] => .ok s
  | (i, d) :: rest =>
    let r := s.receiveChunk (i : Int) d .ok 0
    match r.2 with
    | none => uploadList r.1 rest
    | some e => .error e

/-- The 62-symbol alphabet of `GenerateID` (storage.go line 39). -/
def idAlphabet : List Char :=
  "0123456789ABCDEFGHIJKLMNOPQRSTUVWXYZabcdefghijklmnopqrstuvwxyz".toList

/-- The byte-to-symbol map of `GenerateID` (storage.go line 45):
`alphabet[b % 62]`. -/
def byteToSymbol (b : Nat) : Char :=
  idAlphabet.getD (b % 62) ' '

/-- `GenerateID` (storage.go lines 38-48) as a function of the 8 random
bytes produced by `crypto/rand`: map each byte through `byteToSymbol`. -/
def generateID (bytes : List Nat) : List Char :=
  bytes.map byteToSymbol

/-- Number of byte values in `[0, 256)` that `byteToSymbol` maps to the
symbol `c`; for uniformly random input bytes, the probability of symbol
`c` at any position is this count divided by 256. -/
def symbolPreimageCount (c : Char) : Nat :=
  ((List.range 256).filter (fun b => byteToSymbol b == c)).length

/-- A concrete one-chunk session that has received its single chunk:
used to instantiate theorems about the completion path. -/
def completeSession1 : SessionState :=
  ((mkSession "f.bin" 1 0).receiveChunk 0 [9] WriteOutcome.ok 2).1

/-- A concrete manager holding `completeSession1` under id "a". -/
def completeManager1 : ManagerState :=
  ⟨[("a", completeSession1)]⟩

/-- The successive actions of `ReceiveChunk`'s success path, in source
order (upload.go lines 331-360): `GetSession`; `session.mu.Lock()`; the
index-range validation; `os.Create` of the chunk file; `io.Copy` of the
chunk bytes; the mask update; the `LastActivity` update; finally the
deferred `session.mu.Unlock()` at function return. -/
inductive ChunkAction where
  | lookupSession
  | lockAcquire
  | validateIndex
  | createFile
  | copyBytes
  | setMask
  | setActivity
  | lockRelease
deriving DecidableEq, Repr

/-- The statement sequence of `ReceiveChunk` (upload.go lines 331-360) on
its success path, as the list of its actions in program order. -/
def receiveChunkActions : List ChunkAction :=
  [.lookupSession, .lockAcquire, .validateIndex, .createFile, .copyBytes,
   .setMask, .setActivity, .lockRelease]

/-- An action of the `ReceiveChunk` body executes while the session's
mutex is held: it comes strictly after the `Lock` and strictly before
the deferred `Unlock` in `receiveChunkActions`. -/
def underSessionLock (a : ChunkAction) : Prop :=
  receiveChunkActions.indexOf ChunkAction.lockAcquire < receiveChunkActions.indexOf a ∧
  receiveChunkActions.indexOf a < receiveChunkActions.indexOf ChunkAction.lockRelease

/-! ## Association-list lemmas -/

theorem lookup_filter_key_ne {α β : Type} [DecidableEq α] [BEq α] [LawfulBEq α]
    (l : List (α × β)) (j i : α) :
    List.lookup j (l.filter (fun p => p.1 != i)) = if j = i then none else List.lookup j l := by
  induction l with
  | nil => simp
  | cons p t ih =>
    obtain ⟨k, v⟩ := p
    by_cases hk : k = i
    · subst hk
      by_cases hj : j = k
      · subst hj
        simp [List.filter_cons, ih]
      · have hjk : (j == k) = false := by simp [hj]
        simp [List.filter_cons, List.lookup, hjk, ih]
    · by_cases hj : j = k
      · subst hj
        have hjj : (j == j) = true := by simp
        simp [List.filter_cons, bne_iff_ne, hk, List.lookup, hjj]
      · have hjk : (j == k) = false := by simp [hj]
        simp [List.filter_cons, bne_iff_ne, hk, List.lookup, hjk, ih]

theorem lookup_eq_none_of_not_mem_keys {α β : Type} [BEq α] [LawfulBEq α]
    (l : List (α × β)) (j : α) (h : j ∉ l.map Prod.fst) :
    List.lookup j l = none := by
  induction l with
  | nil => simp
  | cons p t ih =>
    obtain ⟨k, v⟩ := p
    simp only [List.map_cons, List.mem_cons] at h
    push_neg at h
    have hjk : (j == k) = false := by simp [h.1]
    simp [List.lookup, hjk, ih h.2]

theorem lookup_filter_nodup {α β : Type} [DecidableEq α] [BEq α] [LawfulBEq α]
    (p : α × β → Bool) (l : List (α × β)) (hnd : (l.map Prod.fst).Nodup)
    (j : α) (s : β) (h : List.lookup j l = some s) :
    List.lookup j (l.filter p) = if p (j, s) then some s else none := by
  induction l with
  | nil => simp at h
  | cons q t ih =>
    obtain ⟨k, v⟩ := q
    simp only [List.map_cons, List.nodup_cons] at hnd
    by_cases hj : j = k
    · subst hj
      have hjj : (j == j) = true := by simp
      simp only [List.lookup, hjj] at h
      have hv : v = s := by injection h
      subst hv
      rw [List.filter_cons]
      by_cases hp : p (j, v)
      · simp [List.lookup, hjj, hp]
      · rw [if_neg (by simp [hp]), if_neg hp]
        exact lookup_eq_none_of_not_mem_keys _ _
          (fun hm => hnd.1 (List.map_subset Prod.fst (List.filter_sublist t).subset hm))
    · have hjk : (j == k) = false := by simp [hj]
      simp only [List.lookup, hjk] at h
      rw [List.filter_cons]
      by_cases hp : p (k, v)
      · rw [if_pos hp]
        simp [List.lookup, hjk, ih hnd.2 h]
      · rw [if_neg hp]
        exact ih hnd.2 h

theorem updateSession_not_mem (id : String) (s : SessionState)
    (l : List (String × SessionState)) (h : id ∉ l.map Prod.fst) :
    updateSession id s l = l := by
  induction l with
  | nil => rfl
  | cons p t ih =>
    obtain ⟨k, v⟩ := p
    simp only [List.map_cons, List.mem_cons] at h
    push_neg at h
    have hk : (k == id) = false := by simp [Ne.symm h.1]
    have ht := ih h.2
    simp only [updateSession, List.map_cons, hk, Bool.false_eq_true, if_false] at ht ⊢
    rw [ht]

theorem updateSession_self (id : String) (l : List (String × SessionState))
    (hnd : (l.map Prod.fst).Nodup) (s : SessionState)
    (h : List.lookup id l = some s) :
    updateSession id s l = l := by
  induction l with
  | nil => rfl
  | cons p t ih =>
    obtain ⟨k, v⟩ := p
    simp only [List.map_cons, List.nodup_cons] at hnd
    by_cases hk : k = id
    · subst hk
      have hkk : (k == k) = true := by simp
      simp only [List.lookup, hkk] at h
      have hv : v = s := by injection h
      subst hv
      simp only [updateSession, List.map_cons, hkk, if_pos]
      have ht : updateSession k v t = t := updateSession_not_mem k v t hnd.1
      simp only [updateSession] at ht
      rw [ht]
    · have hkid : (k == id) = false := by simp [hk]
      have hidk : (id == k) = false := by simp [Ne.symm hk]
      simp only [List.lookup, hidk] at h
      have ht := ih hnd.2 h
      simp only [updateSession, List.map_cons, hkid, Bool.false_eq_true, if_false] at ht ⊢
      rw [ht]

/-! ## Claim theorems: validation, discard, invalid index, write failure -/

/-- C5: for every declaredSize <= 0, initSession (the init handler backed
by InitUpload) fails with a ValidationError and has no side effect: the
error is returned before any session is registered or any scratch
directory is created, so no session and no scratch directory for it
becomes visible. -/
theorem initSession_rejects_nonpositive_size (m : ManagerState) (id : String)
    (fileName : String) (fileSize : Int) (now : Int) (h : fileSize ≤ 0) :
    handleUploadInit m id fileName fileSize now = .error .validationError := by
  unfold handleUploadInit
  rw [if_pos (Or.inr h)]

theorem initSession_rejects_nonpositive_size_witness :
    (0 : Int) ≤ 0 ∧
      handleUploadInit ⟨[]⟩ "id1" "a.txt" 0 7 = .error .validationError :=
  ⟨by decide, initSession_rejects_nonpositive_size ⟨[]⟩ "id1" "a.txt" 0 7 (by decide)⟩

/-- C6: after discard(id) the session no longer exists and never returns:
getSession(id) reports not-found, a subsequent receiveChunk on id fails
with NotFound, and a second discard(id) on the already-discarded id is a
no-op rather than an error. -/
theorem discard_idempotent_and_gone (m : ManagerState) (id : String) (index : Int)
    (data : List Nat) (w : WriteOutcome) (now : Int) :
    (m.discard id).getSession id = none ∧
    (m.discard id).receiveChunk id index data w now = (m.discard id, some .notFound) ∧
    (m.discard id).discard id = m.discard id := by
  have hnone : (m.discard id).getSession id = none := by
    unfold ManagerState.discard ManagerState.getSession
    rw [lookup_filter_key_ne]
    simp
  refine ⟨hnone, ?_, ?_⟩
  · unfold ManagerState.receiveChunk
    rw [hnone]
  · unfold ManagerState.discard
    simp [List.filter_filter]

/-- C4: for every existing session and every index with index < 0 or
index >= totalChunks, receiveChunk fails with InvalidIndex, writes no
chunk file, and leaves the session state (receivedCount, mask,
lastActivityAt, chunk files) and the whole session table unchanged. -/
theorem receiveChunk_invalid_index_no_mutation (m : ManagerState) (id : String)
    (s : SessionState) (index : Int) (data : List Nat) (w : WriteOutcome) (now : Int)
    (hnd : (m.sessions.map Prod.fst).Nodup)
    (hs : m.getSession id = some s)
    (hidx : index < 0 ∨ s.totalChunks ≤ index) :
    m.receiveChunk id index data w now = (m, some .invalidIndex) := by
  have hrc : s.receiveChunk index data w now = (s, some .invalidIndex) := by
    unfold SessionState.receiveChunk
    rw [if_pos hidx]
  unfold ManagerState.receiveChunk
  rw [hs]
  simp only [hrc]
  rw [updateSession_self id m.sessions hnd s hs]

theorem receiveChunk_invalid_index_no_mutation_witness :
    ((ManagerState.mk [("a", mkSession "f.bin" 1 0)]).sessions.map Prod.fst).Nodup ∧
    (ManagerState.mk [("a", mkSession "f.bin" 1 0)]).getSession "a" = some (mkSession "f.bin" 1 0) ∧
    ((5 : Int) < 0 ∨ (mkSession "f.bin" 1 0).totalChunks ≤ 5) ∧
    (ManagerState.mk [("a", mkSession "f.bin" 1 0)]).receiveChunk "a" 5 [9] .ok 3 =
      (ManagerState.mk [("a", mkSession "f.bin" 1 0)], some .invalidIndex) :=
  ⟨by decide, by decide, by decide,
    receiveChunk_invalid_index_no_mutation (ManagerState.mk [("a", mkSession "f.bin" 1 0)])
      "a" (mkSession "f.bin" 1 0) 5 [9] .ok 3 (by decide) (by decide) (by decide)⟩

/-- C3 counterexample: the claim asserts that after a failed chunk write
the mask entry for the index is unset regardless of whether the same
index had been received earlier.  The code leaves the mask untouched on
the failure path, so re-uploading an already-received index with a
failing write leaves the mask entry SET while the chunk file has been
removed: on a 1-chunk session, receive chunk 0 successfully, then
receive chunk 0 again with a write failure — the call reports the I/O
error and removes the file, but the mask still reads received. -/
theorem receiveChunk_write_failure_mask_counterexample :
    (((mkSession "f.bin" 1 0).receiveChunk 0 [7] .ok 5).1.receiveChunk 0 [8] .copyFailed 6).2
        = some .ioFailure ∧
    (((mkSession "f.bin" 1 0).receiveChunk 0 [7] .ok 5).1.receiveChunk 0 [8] .copyFailed 6).1.receivedMask
        = [true] ∧
    List.lookup 0
        (((mkSession "f.bin" 1 0).receiveChunk 0 [7] .ok 5).1.receiveChunk 0 [8] .copyFailed 6).1.chunks
        = none := by
  decide

/-- C3 (amended): for every session and valid index, if the disk write
performed by receiveChunk fails partway then the partially-written chunk
file is removed and the mask entry and lastActivityAt are left unchanged
by the failed call — so the entry remains unset (and the chunk is
retryable) whenever the index had not been successfully received
earlier; if it had been received earlier the entry remains set even
though the chunk file is gone.  If the chunk file cannot even be
created, the session is entirely unchanged. -/
theorem receiveChunk_write_failure_cleanup (s : SessionState) (index : Int)
    (data : List Nat) (now : Int)
    (h0 : 0 ≤ index) (h1 : index < s.totalChunks) :
    (s.receiveChunk index data .copyFailed now).2 = some .ioFailure ∧
    List.lookup index.toNat (s.receiveChunk index data .copyFailed now).1.chunks = none ∧
    (s.receiveChunk index data .copyFailed now).1.receivedMask = s.receivedMask ∧
    (s.receiveChunk index data .copyFailed now).1.lastActivity = s.lastActivity ∧
    s.receiveChunk index data .createFailed now = (s, some .ioFailure) := by
  have hguard : ¬(index < 0 ∨ s.totalChunks ≤ index) := by omega
  unfold SessionState.receiveChunk
  rw [if_neg hguard]
  refine ⟨rfl, ?_, rfl, rfl, by rw [if_neg hguard]⟩
  unfold eraseChunk
  rw [lookup_filter_key_ne]
  simp

theorem receiveChunk_write_failure_cleanup_witness :
    (0 : Int) ≤ 0 ∧ (0 : Int) < (mkSession "f.bin" 1 0).totalChunks ∧
    (((mkSession "f.bin" 1 0).receiveChunk 0 [1] .copyFailed 3).2 = some .ioFailure ∧
      List.lookup (Int.toNat 0) ((mkSession "f.bin" 1 0).receiveChunk 0 [1] .copyFailed 3).1.chunks = none ∧
      ((mkSession "f.bin" 1 0).receiveChunk 0 [1] .copyFailed 3).1.receivedMask = (mkSession "f.bin" 1 0).receivedMask ∧
      ((mkSession "f.bin" 1 0).receiveChunk 0 [1] .copyFailed 3).1.lastActivity = (mkSession "f.bin" 1 0).lastActivity ∧
      (mkSession "f.bin" 1 0).receiveChunk 0 [1] .createFailed 3 = (mkSession "f.bin" 1 0, some .ioFailure)) :=
  ⟨by decide, by decide,
    receiveChunk_write_failure_cleanup (mkSession "f.bin" 1 0) 0 [1] 3 (by decide) (by decide)⟩

/-- C7: for a sweep at time now with the inactivity timeout: every
session whose lastActivityAt is strictly older than now - timeout is
discarded by the sweep (removed from the table together with its scratch
directory, exactly as discard), and every session whose lastActivityAt
is at now - timeout or later survives the sweep unchanged. -/
theorem sweepStale_timeout_boundary (m : ManagerState) (now : Int) (id : String)
    (s : SessionState)
    (hnd : (m.sessions.map Prod.fst).Nodup)
    (hs : m.getSession id = some s) :
    (s.lastActivity < now - uploadTimeout → (m.cleanupStale now).getSession id = none) ∧
    (now - uploadTimeout ≤ s.lastActivity → (m.cleanupStale now).getSession id = some s) := by
  have hlk : List.lookup id
      (m.sessions.filter (fun p => !(decide (uploadTimeout < now - p.2.lastActivity)))) =
      if (!(decide (uploadTimeout < now - s.lastActivity))) = true then some s else none :=
    lookup_filter_nodup
      (fun p => !(decide (uploadTimeout < now - p.2.lastActivity))) m.sessions hnd id s hs
  constructor
  · intro h
    have hstale : uploadTimeout < now - s.lastActivity := by omega
    have hp : (!(decide (uploadTimeout < now - s.lastActivity))) = false := by simp [hstale]
    unfold ManagerState.cleanupStale ManagerState.getSession
    rw [hlk, hp]
    simp
  · intro h
    have hfresh : ¬ (uploadTimeout < now - s.lastActivity) := by omega
    have hp : (!(decide (uploadTimeout < now - s.lastActivity))) = true := by simp [hfresh]
    unfold ManagerState.cleanupStale ManagerState.getSession
    rw [hlk, hp]
    simp

theorem sweepStale_timeout_boundary_witness :
    (((ManagerState.mk [("a", mkSession "f.bin" 1 0)]).sessions.map Prod.fst).Nodup ∧
      (ManagerState.mk [("a", mkSession "f.bin" 1 0)]).getSession "a" = some (mkSession "f.bin" 1 0)) ∧
    ((mkSession "f.bin" 1 0).lastActivity < (uploadTimeout + 1) - uploadTimeout →
      ((ManagerState.mk [("a", mkSession "f.bin" 1 0)]).cleanupStale (uploadTimeout + 1)).getSession "a" = none) ∧
    ((uploadTimeout + 1) - uploadTimeout ≤ (mkSession "f.bin" 1 0).lastActivity →
      ((ManagerState.mk [("a", mkSession "f.bin" 1 0)]).cleanupStale (uploadTimeout + 1)).getSession "a" = some (mkSession "f.bin" 1 0)) :=
  ⟨⟨by decide, by decide⟩,
    sweepStale_timeout_boundary (ManagerState.mk [("a", mkSession "f.bin" 1 0)])
      (uploadTimeout + 1) "a" (mkSession "f.bin" 1 0) (by decide) (by decide)⟩

/-- C10: if share creation fails during the completion path (after
isComplete was true), the upload session is not discarded: the manager
state is unchanged, so the session is still in the table with its
received mask and chunk files intact and completion can be retried; the
session is removed (exactly as discard) only when the share has been
successfully created. -/
theorem handleUploadComplete_found (m : ManagerState) (id : String)
    (s : SessionState) (w : ShareOutcome) (hs : m.getSession id = some s) :
    handleUploadComplete m id w =
      (if s.isComplete then
        match assembleChunks s with
        | none => (m, Except.error UploadError.storageCorruption)
        | some bytes =>
          match w with
          | ShareOutcome.failed => (m, Except.error UploadError.ioFailure)
          | ShareOutcome.ok => (m.discard id, Except.ok bytes)
      else (m, Except.error UploadError.incomplete)) := by
  unfold handleUploadComplete
  rw [hs]

theorem share_failure_preserves_session (m : ManagerState) (id : String)
    (s : SessionState) (hs : m.getSession id = some s) (hc : s.isComplete = true) :
    (handleUploadComplete m id .failed).1 = m ∧
    (handleUploadComplete m id .failed).1.getSession id = some s ∧
    (∃ e, (handleUploadComplete m id .failed).2 = .error e) ∧
    (∀ bytes, (handleUploadComplete m id .ok).2 = .ok bytes →
      (handleUploadComplete m id .ok).1 = m.discard id) := by
  rw [handleUploadComplete_found m id s .failed hs, handleUploadComplete_found m id s .ok hs, hc]
  cases hass : assembleChunks s with
  | none =>
    refine ⟨by simp, by simp [hs], ⟨.storageCorruption, by simp⟩, ?_⟩
    intro bytes hb
    simp at hb
  | some bytes0 =>
    refine ⟨by simp, by simp [hs], ⟨.ioFailure, by simp⟩, ?_⟩
    intro bytes hb
    simp

theorem share_failure_preserves_session_witness :
    (completeManager1.getSession "a" = some completeSession1 ∧
      completeSession1.isComplete = true) ∧
    (handleUploadComplete completeManager1 "a" .failed).1 = completeManager1 ∧
    (handleUploadComplete completeManager1 "a" .failed).1.getSession "a" = some completeSession1 ∧
    (∃ e, (handleUploadComplete completeManager1 "a" .failed).2 = .error e) ∧
    (∀ bytes, (handleUploadComplete completeManager1 "a" .ok).2 = .ok bytes →
      (handleUploadComplete completeManager1 "a" .ok).1 = completeManager1.discard "a") :=
  ⟨⟨by decide, by decide⟩,
    share_failure_preserves_session completeManager1 "a" completeSession1 (by decide) (by decide)⟩

/-! ## Chunk-count arithmetic -/

theorem tdiv_ofNat (a b : Nat) : Int.tdiv (a : Int) (b : Int) = ((a / b : Nat) : Int) := rfl

/-- C2: for every session created by initSession with declared size s and
the server's chunk size, totalChunks equals ceil(s / chunkSize) when
s > 0, totalChunks equals 1 when s is 0, and totalChunks >= 1 holds. -/
theorem totalChunks_ceil_spec (s : Int) (hs : 0 ≤ s) :
    (0 < s → computeTotalChunks s = ⌈(s : ℚ) / (defaultChunkSize : ℚ)⌉) ∧
    (s = 0 → computeTotalChunks s = 1) ∧
    1 ≤ computeTotalChunks s := by
  obtain ⟨n, rfl⟩ : ∃ n : Nat, s = (n : Int) := ⟨s.toNat, (Int.toNat_of_nonneg hs).symm⟩
  by_cases hn : n = 0
  · subst hn
    refine ⟨fun h => absurd h (by omega), fun _ => by decide, by decide⟩
  · have hpos : 0 < n := Nat.pos_of_ne_zero hn
    have harg : ((n : Int) + defaultChunkSize - 1) = ((n + 5242880 - 1 : Nat) : Int) := by
      unfold defaultChunkSize
      omega
    have hcast2 : defaultChunkSize = ((5242880 : Nat) : Int) := by decide
    have hval : computeTotalChunks (n : Int) = (((n + 5242880 - 1) / 5242880 : Nat) : Int) := by
      unfold computeTotalChunks
      rw [harg, hcast2, tdiv_ofNat]
      rw [if_neg (by omega)]
    have hlow : ((((n + 5242880 - 1) / 5242880 : Nat) : Int) - 1) * 5242880 < (n : Int) := by
      omega
    have hup : (n : Int) ≤ (((n + 5242880 - 1) / 5242880 : Nat) : Int) * 5242880 := by
      omega
    refine ⟨fun _ => ?_, fun h => absurd h (by omega), by omega⟩
    rw [hval]
    symm
    rw [Int.ceil_eq_iff]
    have hcq : (defaultChunkSize : ℚ) = 5242880 := by norm_num [defaultChunkSize]
    constructor
    · rw [hcq, lt_div_iff₀ (by norm_num)]
      exact_mod_cast hlow
    · rw [hcq, div_le_iff₀ (by norm_num)]
      exact_mod_cast hup

theorem totalChunks_ceil_spec_witness :
    (0 : Int) ≤ 12000000 ∧
    ((0 < (12000000 : Int) →
        computeTotalChunks 12000000 = ⌈((12000000 : Int) : ℚ) / (defaultChunkSize : ℚ)⌉) ∧
      ((12000000 : Int) = 0 → computeTotalChunks 12000000 = 1) ∧
      1 ≤ computeTotalChunks 12000000) :=
  ⟨by decide, totalChunks_ceil_spec 12000000 (by decide)⟩

/-! ## Identifier generator and lock scope -/

theorem byteToSymbol_mem (b : Nat) : byteToSymbol b ∈ idAlphabet := by
  unfold byteToSymbol
  have hlen : idAlphabet.length = 62 := by decide
  have h : b % 62 < idAlphabet.length := by
    rw [hlen]
    exact Nat.mod_lt _ (by norm_num)
  rw [List.getD_eq_getElem _ _ h]
  exact List.getElem_mem h

/-- C8 counterexample: the claim asserts that for uniformly random input
bytes each of the 62 symbols is equally likely at every position.  The
code maps a byte b to alphabet[b % 62], and 256 = 4 * 62 + 8, so the 8
symbols at alphabet positions 0-7 each have 5 of the 256 byte values as
preimages while the remaining 54 symbols have only 4: the symbol
distribution is not uniform. -/
theorem generateID_uniformity_counterexample :
    symbolPreimageCount '0' = 5 ∧ symbolPreimageCount 'z' = 4 ∧
    symbolPreimageCount '0' ≠ symbolPreimageCount 'z' := by
  decide

/-- C8 (amended): generateID always returns a string of exactly 8
symbols and every symbol is drawn from the 62-symbol alphanumeric
alphabet; the byte-to-symbol mapping is however not exactly uniform: for
uniformly random input bytes the symbols at alphabet positions 0-7
(digits 0-7) each occur with probability 5/256 at every position while
the other 54 symbols occur with probability 4/256. -/
theorem generateID_length_alphabet_bias (bytes : List Nat) (h : bytes.length = 8) :
    (generateID bytes).length = 8 ∧
    (∀ ch ∈ generateID bytes, ch ∈ idAlphabet) ∧
    (∀ i : Nat, i < 62 →
      symbolPreimageCount (idAlphabet.getD i ' ') = if i < 8 then 5 else 4) := by
  refine ⟨by simp [generateID, h], ?_, by decide⟩
  intro ch hch
  simp only [generateID, List.mem_map] at hch
  obtain ⟨b, _, rfl⟩ := hch
  exact byteToSymbol_mem b

theorem generateID_length_alphabet_bias_witness :
    ([0, 1, 2, 3, 4, 5, 6, 7] : List Nat).length = 8 ∧
    ((generateID [0, 1, 2, 3, 4, 5, 6, 7]).length = 8 ∧
      (∀ ch ∈ generateID [0, 1, 2, 3, 4, 5, 6, 7], ch ∈ idAlphabet) ∧
      (∀ i : Nat, i < 62 →
        symbolPreimageCount (idAlphabet.getD i ' ') = if i < 8 then 5 else 4)) :=
  ⟨by decide, generateID_length_alphabet_bias [0, 1, 2, 3, 4, 5, 6, 7] (by decide)⟩

/-- C9 counterexample: the claim asserts that the disk writes of the
chunk bytes are not serialized under the session's mutual-exclusion
boundary and proceed fully in parallel.  In the code the session mutex
is acquired before the index check and released only by defer at
function return, so `os.Create` and `io.Copy` both execute while the
session mutex is held: the chunk-byte disk write is inside the lock
region, hence serialized against every other receiveChunk of the same
session. -/
theorem chunk_write_under_lock_counterexample :
    underSessionLock ChunkAction.copyBytes ∧ underSessionLock ChunkAction.createFile := by
  unfold underSessionLock
  decide

/-- C9 (amended): within receiveChunk, the session's mutex is held for
the entire body after the session lookup: index validation, chunk-file
creation, the disk write of the chunk bytes, and the mask and
lastActivityAt mutations all execute under the session lock, so chunk
writes even to distinct chunk files of the same session are serialized;
only the session lookup itself runs outside the lock (distinct sessions
have distinct mutexes and remain independent). -/
theorem receiveChunk_lock_scope :
    ¬ underSessionLock ChunkAction.lookupSession ∧
    underSessionLock ChunkAction.validateIndex ∧
    underSessionLock ChunkAction.createFile ∧
    underSessionLock ChunkAction.copyBytes ∧
    underSessionLock ChunkAction.setMask ∧
    underSessionLock ChunkAction.setActivity := by
  unfold underSessionLock
  decide

/-! ## Order-independent receipt, order-correct assembly -/

theorem lookup_eraseChunk (i j : Nat) (l : List (Nat × List Nat)) :
    List.lookup j (eraseChunk i l) = if j = i then none else List.lookup j l :=
  lookup_filter_key_ne l j i

theorem uploadList_range (d : Nat → List Nat) :
    ∀ (l : List Nat) (s : SessionState),
      (∀ i ∈ l, ((i : Nat) : Int) < s.totalChunks) →
      ∃ s', uploadList s (l.map (fun i => (i, d i))) = .ok s' ∧
        s'.totalChunks = s.totalChunks ∧
        (∀ j, List.lookup j s'.chunks =
          if j ∈ l then some (d j) else List.lookup j s.chunks) := by
  intro l
  induction l with
  | nil =>
    intro s h
    exact ⟨s, rfl, rfl, by simp⟩
  | cons i rest ih =>
    intro s h
    have hi : ((i : Nat) : Int) < s.totalChunks := h i (List.mem_cons_self i rest)
    have hguard : ¬(((i : Nat) : Int) < 0 ∨ s.totalChunks ≤ ((i : Nat) : Int)) := by omega
    have hstep : s.receiveChunk ((i : Nat) : Int) (d i) .ok 0 =
        ({ s with
            chunks := (i, d i) :: eraseChunk i s.chunks,
            receivedMask := s.receivedMask.set i true,
            lastActivity := 0 }, none) := by
      unfold SessionState.receiveChunk
      rw [if_neg hguard]
      rfl
    obtain ⟨s', hok, htc, hlk⟩ := ih
      { s with
        chunks := (i, d i) :: eraseChunk i s.chunks,
        receivedMask := s.receivedMask.set i true,
        lastActivity := 0 }
      (fun j hj => h j (List.mem_cons_of_mem _ hj))
    refine ⟨s', ?_, htc, ?_⟩
    · simp only [List.map_cons, uploadList, hstep]
      exact hok
    · intro j
      rw [hlk j]
      by_cases hj : j ∈ rest
      · simp [hj]
      · by_cases hji : j = i
        · subst hji
          have hjj : (j == j) = true := by simp
          simp [List.lookup, hjj]
        · have hjk : (j == i) = false := by simp [hji]
          simp only [List.mem_cons, hji, hj, or_self, if_false, false_or]
          simp only [List.lookup, hjk, lookup_eraseChunk, hji, if_false]

theorem collectChunks_eq_map (chunks : List (Nat × List Nat)) (g : Nat → List Nat) :
    ∀ l : List Nat, (∀ i ∈ l, List.lookup i chunks = some (g i)) →
      collectChunks chunks l = some (l.map g) := by
  intro l
  induction l with
  | nil => intro h; rfl
  | cons i rest ih =>
    intro h
    have hi := h i (List.mem_cons_self i rest)
    have hrest := ih (fun j hj => h j (List.mem_cons_of_mem _ hj))
    simp only [collectChunks, hi, hrest, List.map_cons]

/-- C1: for every session whose totalChunks indices have each been
uploaded exactly once via receiveChunk, in any order (any permutation of
0..totalChunks-1, including reversed), the assembled stream produced by
the chunk reader equals byte-for-byte the concatenation of the uploaded
chunk contents in increasing index order (end-of-stream follows the last
byte: the assembled stream is exactly this finite concatenation). -/
theorem assembly_order_independent (s : SessionState) (d : Nat → List Nat)
    (perm : List Nat)
    (hperm : List.Perm perm (List.range s.totalChunks.toNat)) :
    ∃ s', uploadList s (perm.map (fun i => (i, d i))) = .ok s' ∧
      assembleChunks s' = some (((List.range s.totalChunks.toNat).map d).flatten) := by
  have hmem : ∀ i ∈ perm, ((i : Nat) : Int) < s.totalChunks := by
    intro i hi
    have h1 : i ∈ List.range s.totalChunks.toNat := (hperm.mem_iff).mp hi
    have hlt : i < s.totalChunks.toNat := List.mem_range.mp h1
    omega
  obtain ⟨s', hok, htc, hlk⟩ := uploadList_range d perm s hmem
  refine ⟨s', hok, ?_⟩
  unfold assembleChunks chunkIndices
  rw [htc]
  have hcover : ∀ i ∈ List.range s.totalChunks.toNat,
      List.lookup i s'.chunks = some (d i) := by
    intro i hi
    rw [hlk i, if_pos ((hperm.mem_iff).mpr hi)]
  rw [collectChunks_eq_map s'.chunks d _ hcover]
  rfl

theorem assembly_order_independent_witness :
    List.Perm [1, 0] (List.range (mkSession "f.bin" 6000000 0).totalChunks.toNat) ∧
    ∃ s', uploadList (mkSession "f.bin" 6000000 0) ([1, 0].map (fun i => (i, [i, i]))) = .ok s' ∧
      assembleChunks s' =
        some (((List.range (mkSession "f.bin" 6000000 0).totalChunks.toNat).map
          (fun i => [i, i])).flatten) :=
  ⟨by decide,
    assembly_order_independent (mkSession "f.bin" 6000000 0) (fun i => [i, i]) [1, 0] (by decide)⟩
